import Mathlib

/-!
A shallow embedding of the board interaction controller of the web chess
game, translated from `src/app_ai.js` (the full variant with undo/redo,
board flip and threat overlay) and from `src/unnamed/part_000` (the
simpler AI variant), together with proofs of the documented properties.

The external rules engine (chess.js) is out of scope for the repository
and is modelled as an abstract structure of operations; facts about the
engine that a property needs (e.g. that re-applying an undone move
restores the position) appear as explicit hypotheses.
-/

/-- A chess piece as chess.js reports it: a one-letter type tag
(p, r, n, b, q or k) and a colour tag (w or b). -/
structure Piece where
  ptype : Char
  color : Char
deriving DecidableEq, Repr

/-- A board square named by its file (a-h) and rank (1-8) characters,
mirroring the two-character square strings such as "e4"; `rank` embeds
the `square[1]` character access of the source. -/
structure Square where
  file : Char
  rank : Char
deriving DecidableEq, Repr

/-- A move as exchanged with the rules engine: source square, target
square and an optional promotion piece letter (the fields `from`, `to`
and `promotion` of a chess.js move object). -/
structure ChessMove where
  fromSq : Square
  toSq : Square
  promotion : Option String
deriving DecidableEq, Repr

/-- The external rules engine (chess.js), modelled as a black box over an
abstract game-state type `σ`.  `moveApply` returns `none` for an illegal
move request, in which case the real engine leaves its state unchanged;
`undo` returns the prior state and the undone move, or `none` when the
history is empty.  `historyLen` is the length of `game.history()`. -/
structure Engine (σ : Type) where
  turn : σ → Char
  getPiece : σ → Square → Option Piece
  movesFrom : σ → Square → List ChessMove
  movesAll : σ → List ChessMove
  moveApply : σ → ChessMove → Option σ
  undo : σ → Option (σ × ChessMove)
  in_checkmate : σ → Bool
  in_draw : σ → Bool
  game_over : σ → Bool
  reset : σ → σ
  historyLen : σ → Nat

/-- The mutable state of the `app_ai.js` controller: the engine state
reference plus the module-level variables `playerColor`, `aiColor`,
`aiThinking`, `redoStack`, `showThreats`, `flipped`, `selectedSquare`
and `possibleMoves`. -/
structure Ctrl (σ : Type) where
  game : σ
  playerColor : Char
  aiColor : Char
  aiThinking : Bool
  redoStack : List ChessMove
  showThreats : Bool
  flipped : Bool
  selectedSquare : Option Square
  possibleMoves : List Square
deriving DecidableEq, Repr

/-- `game.move(m)` as the controller uses it: apply the move when legal,
otherwise the engine state is unchanged (chess.js returns null and does
not mutate). -/
def moveOrKeep {σ : Type} (E : Engine σ) (g : σ) (m : ChessMove) : σ :=
  match E.moveApply g m with
  | some g2 => g2
  | none => g

/-- JavaScript's `toLowerCase` on a string, character by character. -/
def strToLower (s : String) : String :=
  String.mk (s.data.map Char.toLower)

/-- The promotion-choice parsing of `onSquareClick` in app_ai.js:
a null (cancelled) or empty prompt answer, or one not in q/r/b/n after
lower-casing, defaults to queen; otherwise the lower-cased answer is
used. -/
def promoChoice (choice : Option String) : String :=
  match choice with
  | none => "q"
  | some s =>
    if s ≠ "" ∧ ["q", "r", "b", "n"].contains (strToLower s) then strToLower s
    else "q"

/-- The tail of `onSquareClick`: select the clicked square when it holds
a piece of the side to move (recording the engine-reported destinations),
otherwise clear the selection. -/
def selectOrClear {σ : Type} (E : Engine σ) (c : Ctrl σ) (square : Square)
    (piece : Option Piece) : Ctrl σ :=
  match piece with
  | some p =>
    if p.color = E.turn c.game then
      { c with selectedSquare := some square,
               possibleMoves := (E.movesFrom c.game square).map (fun m => m.toSq) }
    else
      { c with selectedSquare := none, possibleMoves := [] }
  | none => { c with selectedSquare := none, possibleMoves := [] }

/-- `onSquareClick` of app_ai.js.  `choice` is the answer the user would
give to the promotion prompt (`none` models a cancelled prompt); it is
consulted only on the promotion path, exactly as in the source. -/
def onSquareClick {σ : Type} (E : Engine σ) (choice : Option String)
    (c : Ctrl σ) (square : Square) : Ctrl σ :=
  if c.aiThinking ∨ ¬ (E.turn c.game = c.playerColor) then c else
  let piece := E.getPiece c.game square
  match c.selectedSquare with
  | some sel =>
    if square ∈ c.possibleMoves then
      let movingPiece := E.getPiece c.game sel
      let promotion : Option String :=
        match movingPiece with
        | some mp =>
          if mp.ptype = 'p' ∧
             ((mp.color = 'w' ∧ square.rank = '8') ∨
              (mp.color = 'b' ∧ square.rank = '1')) then
            some (promoChoice choice)
          else none
        | none => none
      { c with game := moveOrKeep E c.game ⟨sel, square, promotion⟩,
               selectedSquare := none, possibleMoves := [], redoStack := [] }
    else selectOrClear E c square piece
  | none => selectOrClear E c square piece

/-- `undoLastMove` of app_ai.js: a no-op while the AI is busy or when the
engine has nothing to undo; otherwise pop the last move, push it on the
redo stack and clear the selection. -/
def undoLastMove {σ : Type} (E : Engine σ) (c : Ctrl σ) : Ctrl σ :=
  if c.aiThinking then c else
  match E.undo c.game with
  | none => c
  | some (g2, undone) =>
    { c with game := g2, redoStack := undone :: c.redoStack,
             selectedSquare := none, possibleMoves := [], aiThinking := false }

/-- `redoMove` of app_ai.js: a no-op while the AI is busy or when the
redo stack is empty; otherwise pop the top move and re-apply its from,
to and promotion fields. -/
def redoMove {σ : Type} (E : Engine σ) (c : Ctrl σ) : Ctrl σ :=
  if c.aiThinking then c else
  match c.redoStack with
  | [] => c
  | mv :: rest =>
    { c with game := moveOrKeep E c.game ⟨mv.fromSq, mv.toSq, mv.promotion⟩,
             redoStack := rest, selectedSquare := none, possibleMoves := [] }

/-- The synchronous prefix of `triggerAiMove` in app_ai.js: return
unchanged when it is not the AI's turn or the game is over, else raise
the `aiThinking` flag (the rest runs after the thinking delay). -/
def triggerAiMoveSync {σ : Type} (E : Engine σ) (c : Ctrl σ) : Ctrl σ :=
  if ¬ (E.turn c.game = c.aiColor) ∨ E.game_over c.game then c
  else { c with aiThinking := true }

/-- The body of the `setTimeout` callback of `triggerAiMove` in
app_ai.js, including the state mutation performed by the animation
completion callback.  `k` models the random draw
`Math.floor(Math.random() * legalMoves.length)`. -/
def aiTimeoutStep {σ : Type} (E : Engine σ) (k : Nat) (c : Ctrl σ) : Ctrl σ :=
  let legalMoves := E.movesAll c.game
  if h : legalMoves.length = 0 then { c with aiThinking := false }
  else
    let mv := legalMoves.get ⟨k % legalMoves.length, Nat.mod_lt k (Nat.pos_of_ne_zero h)⟩
    { c with game := moveOrKeep E c.game ⟨mv.fromSq, mv.toSq, mv.promotion⟩,
             selectedSquare := none, possibleMoves := [],
             aiThinking := false, redoStack := [] }

/-- `triggerAiMove` of app_ai.js as one end-to-end transition: the
synchronous guard followed by the deferred timeout body. -/
def triggerAiMove {σ : Type} (E : Engine σ) (k : Nat) (c : Ctrl σ) : Ctrl σ :=
  if ¬ (E.turn c.game = c.aiColor) ∨ E.game_over c.game then c
  else aiTimeoutStep E k { c with aiThinking := true }

/-- `resetGame` of app_ai.js: reset the engine, re-draw the sides from a
coin flip, clear selection and flags, trigger the AI when it holds
white, and finally clear the redo stack (in exactly this order). -/
def resetGame {σ : Type} (E : Engine σ) (coin : Bool) (c : Ctrl σ) : Ctrl σ :=
  let g2 := E.reset c.game
  let pc : Char := if coin then 'w' else 'b'
  let ac : Char := if pc = 'w' then 'b' else 'w'
  let c1 : Ctrl σ :=
    { game := g2, playerColor := pc, aiColor := ac, selectedSquare := none,
      possibleMoves := [], aiThinking := false, flipped := false,
      showThreats := c.showThreats, redoStack := c.redoStack }
  let c2 := if ac = 'w' then triggerAiMoveSync E c1 else c1
  { c2 with redoStack := [] }

/-- `flipBoard` of app_ai.js: toggle the display-orientation flag only. -/
def flipBoard {σ : Type} (c : Ctrl σ) : Ctrl σ :=
  { c with flipped := !c.flipped }

/-- `toggleThreats` of app_ai.js: toggle the display-only threat flag. -/
def toggleThreats {σ : Type} (c : Ctrl σ) : Ctrl σ :=
  { c with showThreats := !c.showThreats }

/-- The controller state right after the module initialisation of
app_ai.js: fresh engine state, a coin-flip side assignment, empty
histories and no selection. -/
def initCtrl {σ : Type} (g0 : σ) (pc : Char) : Ctrl σ :=
  { game := g0, playerColor := pc, aiColor := if pc = 'w' then 'b' else 'w',
    aiThinking := false, redoStack := [], showThreats := false,
    flipped := false, selectedSquare := none, possibleMoves := [] }

/-- A sequence of human clicks, each with the promotion answer the user
would give if prompted. -/
def clickFold {σ : Type} (E : Engine σ) (l : List (Square × Option String))
    (c : Ctrl σ) : Ctrl σ :=
  l.foldl (fun acc p => onSquareClick E p.2 acc p.1) c

/-- The controller states reachable from the initial state of app_ai.js
by any interleaving of the controller's operations.  The AI timeout step
is allowed at any time, over-approximating the real scheduling (a
pending timeout can fire even after a reset). -/
inductive Reach {σ : Type} (E : Engine σ) (g0 : σ) : Ctrl σ → Prop
  | init (pc : Char) : Reach E g0 (initCtrl g0 pc)
  | click (ch : Option String) (sq : Square) {c : Ctrl σ} :
      Reach E g0 c → Reach E g0 (onSquareClick E ch c sq)
  | undoStep {c : Ctrl σ} : Reach E g0 c → Reach E g0 (undoLastMove E c)
  | redoStep {c : Ctrl σ} : Reach E g0 c → Reach E g0 (redoMove E c)
  | resetStep (coin : Bool) {c : Ctrl σ} :
      Reach E g0 c → Reach E g0 (resetGame E coin c)
  | flipStep {c : Ctrl σ} : Reach E g0 c → Reach E g0 (flipBoard c)
  | threatsStep {c : Ctrl σ} : Reach E g0 c → Reach E g0 (toggleThreats c)
  | aiSync {c : Ctrl σ} : Reach E g0 c → Reach E g0 (triggerAiMoveSync E c)
  | aiStep (k : Nat) {c : Ctrl σ} : Reach E g0 c → Reach E g0 (aiTimeoutStep E k c)

/-- The selection invariant of the app_ai.js controller: the destination
set is empty, or a square is selected and the destination set is exactly
the engine-reported destinations for that square in the current engine
state. -/
def SelInv {σ : Type} (E : Engine σ) (c : Ctrl σ) : Prop :=
  c.possibleMoves = [] ∨
    ∃ s, c.selectedSquare = some s ∧
      c.possibleMoves = (E.movesFrom c.game s).map (fun m => m.toSq)

/-- The controller state of the simpler variant in src/unnamed/part_000:
it has no redo stack, flip flag or threat flag. -/
structure CtrlV0 (σ : Type) where
  game : σ
  playerColor : Char
  aiColor : Char
  aiThinking : Bool
  selectedSquare : Option Square
  possibleMoves : List Square
deriving DecidableEq, Repr

/-- The select-or-clear tail of `onSquareClick` in part_000. -/
def selectOrClearV0 {σ : Type} (E : Engine σ) (c : CtrlV0 σ) (square : Square)
    (piece : Option Piece) : CtrlV0 σ :=
  match piece with
  | some p =>
    if p.color = E.turn c.game then
      { c with selectedSquare := some square,
               possibleMoves := (E.movesFrom c.game square).map (fun m => m.toSq) }
    else
      { c with selectedSquare := none, possibleMoves := [] }
  | none => { c with selectedSquare := none, possibleMoves := [] }

/-- `onSquareClick` of part_000: same gating and selection logic as the
full variant, but the move is requested without a promotion field and no
redo stack exists. -/
def onSquareClickV0 {σ : Type} (E : Engine σ) (c : CtrlV0 σ) (square : Square) :
    CtrlV0 σ :=
  if c.aiThinking ∨ ¬ (E.turn c.game = c.playerColor) then c else
  let piece := E.getPiece c.game square
  match c.selectedSquare with
  | some sel =>
    if square ∈ c.possibleMoves then
      { c with game := moveOrKeep E c.game ⟨sel, square, none⟩,
               selectedSquare := none, possibleMoves := [] }
    else selectOrClearV0 E c square piece
  | none => selectOrClearV0 E c square piece

/-- The synchronous prefix of `triggerAiMove` in part_000 (identical to
the full variant's). -/
def triggerAiMoveSyncV0 {σ : Type} (E : Engine σ) (c : CtrlV0 σ) : CtrlV0 σ :=
  if ¬ (E.turn c.game = c.aiColor) ∨ E.game_over c.game then c
  else { c with aiThinking := true }

/-- The first half of the `setTimeout` body of `triggerAiMove` in
part_000: pick the random move and highlight it by setting
`selectedSquare` to its source and `possibleMoves` to its destination;
this is the state visible for the whole animation. -/
def aiTimeoutSelectV0 {σ : Type} (E : Engine σ) (k : Nat) (c : CtrlV0 σ) :
    CtrlV0 σ :=
  let legalMoves := E.movesAll c.game
  if h : legalMoves.length = 0 then { c with aiThinking := false }
  else
    let mv := legalMoves.get ⟨k % legalMoves.length, Nat.mod_lt k (Nat.pos_of_ne_zero h)⟩
    { c with selectedSquare := some mv.fromSq, possibleMoves := [mv.toSq] }

/-- The animation completion callback of `triggerAiMove` in part_000:
apply the chosen move, clear the highlight and drop the busy flag. -/
def aiAnimDoneV0 {σ : Type} (E : Engine σ) (k : Nat) (c : CtrlV0 σ) : CtrlV0 σ :=
  let legalMoves := E.movesAll c.game
  if h : legalMoves.length = 0 then c
  else
    let mv := legalMoves.get ⟨k % legalMoves.length, Nat.mod_lt k (Nat.pos_of_ne_zero h)⟩
    { c with game := moveOrKeep E c.game ⟨mv.fromSq, mv.toSq, mv.promotion⟩,
             selectedSquare := none, possibleMoves := [], aiThinking := false }

/-- The initial controller state of part_000. -/
def initCtrlV0 {σ : Type} (g0 : σ) (pc : Char) : CtrlV0 σ :=
  { game := g0, playerColor := pc, aiColor := if pc = 'w' then 'b' else 'w',
    aiThinking := false, selectedSquare := none, possibleMoves := [] }

/-- The controller states reachable in the part_000 variant. -/
inductive ReachV0 {σ : Type} (E : Engine σ) (g0 : σ) : CtrlV0 σ → Prop
  | init (pc : Char) : ReachV0 E g0 (initCtrlV0 g0 pc)
  | click (sq : Square) {c : CtrlV0 σ} :
      ReachV0 E g0 c → ReachV0 E g0 (onSquareClickV0 E c sq)
  | aiSync {c : CtrlV0 σ} : ReachV0 E g0 c → ReachV0 E g0 (triggerAiMoveSyncV0 E c)
  | aiSelect (k : Nat) {c : CtrlV0 σ} :
      ReachV0 E g0 c → ReachV0 E g0 (aiTimeoutSelectV0 E k c)
  | aiDone (k : Nat) {c : CtrlV0 σ} :
      ReachV0 E g0 c → ReachV0 E g0 (aiAnimDoneV0 E k c)

/-- A rendered board square element, keeping only the `dataset.square`
attribute that `animateAIMove` consults. -/
structure SquareEl where
  square : Square
deriving DecidableEq, Repr

/-- One occurrence of the completion callback of `animateAIMove`: either
an immediate call on an early-return path, or one call scheduled after
the fixed transition duration in milliseconds. -/
inductive CbEvent where
  | immediate
  | afterDelay (ms : Nat)
deriving DecidableEq, Repr

/-- The control flow of `animateAIMove` (identical in app_ai.js and
part_000), reduced to the callback occurrences it produces: call at once
when no piece sits on the source square; call at once when the source or
destination square element is missing from the board container; else
schedule exactly one call after the 550 ms transition. -/
def animateAIMove {σ : Type} (E : Engine σ) (g : σ) (children : List SquareEl)
    (mv : ChessMove) : List CbEvent :=
  match E.getPiece g mv.fromSq with
  | none => [CbEvent.immediate]
  | some _ =>
    match children.find? (fun el => el.square == mv.fromSq),
          children.find? (fun el => el.square == mv.toSq) with
    | some _, some _ => [CbEvent.afterDelay 550]
    | some _, none => [CbEvent.immediate]
    | none, _ => [CbEvent.immediate]

/-! Concrete squares and moves used by the executable test engines. -/

def sqE2 : Square := ⟨'e', '2'⟩

def sqE3 : Square := ⟨'e', '3'⟩

def sqE4 : Square := ⟨'e', '4'⟩

def sqE5 : Square := ⟨'e', '5'⟩

def sqE7 : Square := ⟨'e', '7'⟩

def sqE8 : Square := ⟨'e', '8'⟩

def sqD7 : Square := ⟨'d', '7'⟩

def sqD5 : Square := ⟨'d', '5'⟩

def mvE2E4 : ChessMove := ⟨sqE2, sqE4, none⟩

def mvE2E3 : ChessMove := ⟨sqE2, sqE3, none⟩

def mvE7E5 : ChessMove := ⟨sqE7, sqE5, none⟩

def mvD7D5 : ChessMove := ⟨sqD7, sqD5, none⟩

def mvE7E8n : ChessMove := ⟨sqE7, sqE8, some "n"⟩

/-- A small deterministic rules engine over `Nat` states used to
evaluate the controller on concrete inputs.  State 0 lets White play
e2-e4 (or e2-e3) reaching state 1, where Black has two replies; state 2
lets a white pawn on e7 promote on e8. -/
def TEmain : Engine Nat where
  turn g := if g = 1 then 'b' else 'w'
  getPiece g sq :=
    if g = 0 ∧ sq = sqE2 then some ⟨'p', 'w'⟩
    else if g = 2 ∧ sq = sqE7 then some ⟨'p', 'w'⟩
    else none
  movesFrom g sq := if g = 0 ∧ sq = sqE2 then [mvE2E3, mvE2E4] else []
  movesAll g := if g = 1 then [mvE7E5, mvD7D5] else []
  moveApply g m :=
    if g = 0 ∧ m = mvE2E4 then some 1
    else if g = 2 ∧ m = mvE7E8n then some 3
    else none
  undo g := if g = 1 then some (0, mvE2E4) else none
  in_checkmate _ := false
  in_draw _ := false
  game_over _ := false
  reset _ := 0
  historyLen g := if g = 1 then 1 else 0

/-- A test engine whose state 0 is terminal (checkmate, game over, no
legal moves anywhere) and whose reset state 1 is not terminal. -/
def TEterm : Engine Nat where
  turn _ := 'w'
  getPiece _ _ := none
  movesFrom _ _ := []
  movesAll _ := []
  moveApply _ _ := none
  undo _ := none
  in_checkmate g := g == 0
  in_draw _ := false
  game_over g := g == 0
  reset _ := 1
  historyLen _ := 0

/-! Helper lemmas about the controller operations. -/

theorem onSquareClick_gated {σ : Type} (E : Engine σ) (ch : Option String)
    (c : Ctrl σ) (sq : Square)
    (h : c.aiThinking = true ∨ ¬ (E.turn c.game = c.playerColor)) :
    onSquareClick E ch c sq = c := by
  unfold onSquareClick
  rw [if_pos h]

theorem onSquareClickV0_gated {σ : Type} (E : Engine σ)
    (c : CtrlV0 σ) (sq : Square)
    (h : c.aiThinking = true ∨ ¬ (E.turn c.game = c.playerColor)) :
    onSquareClickV0 E c sq = c := by
  unfold onSquareClickV0
  rw [if_pos h]

/-- Claim C1: whenever the AI-busy flag is set or the side to move is
not the human side, a click on any square leaves the whole controller
state (engine state, selection, destination set, history, redo stack)
unchanged, in both controller variants. -/
theorem claim1_turn_gating {σ : Type} (E : Engine σ) (ch : Option String)
    (c : Ctrl σ) (c0 : CtrlV0 σ) (sq sq0 : Square)
    (h : c.aiThinking = true ∨ ¬ (E.turn c.game = c.playerColor))
    (h0 : c0.aiThinking = true ∨ ¬ (E.turn c0.game = c0.playerColor)) :
    onSquareClick E ch c sq = c ∧ onSquareClickV0 E c0 sq0 = c0 := by
  constructor
  · unfold onSquareClick
    rw [if_pos h]
  · unfold onSquareClickV0
    rw [if_pos h0]

/-- A busy controller state over the test engine: the AI flag is up. -/
def cBusy : Ctrl Nat :=
  { game := 0, playerColor := 'w', aiColor := 'b', aiThinking := true,
    redoStack := [mvE2E4], showThreats := false, flipped := false,
    selectedSquare := some sqE2, possibleMoves := [sqE3, sqE4] }

/-- A part_000 state in which it is not the human's turn. -/
def cWrongTurnV0 : CtrlV0 Nat :=
  { game := 0, playerColor := 'b', aiColor := 'w', aiThinking := false,
    selectedSquare := none, possibleMoves := [] }

theorem claim1_turn_gating_witness :
    onSquareClick TEmain none cBusy sqE4 = cBusy ∧
    onSquareClickV0 TEmain cWrongTurnV0 sqE4 = cWrongTurnV0 :=
  claim1_turn_gating TEmain none cBusy cWrongTurnV0 sqE4 sqE4
    (Or.inl rfl) (Or.inr (by decide))

/-- Claim C2: both move-applying paths leave the redo stack empty: the
human click that completes a move, and the AI move committed at the end
of the automated turn (when the legal-move list is non-empty). -/
theorem claim2_move_clears_redo {σ : Type} (E : Engine σ) (ch : Option String)
    (c cAi : Ctrl σ) (sq : Square) (k : Nat) (sel : Square)
    (hbusy : c.aiThinking = false)
    (hturn : E.turn c.game = c.playerColor)
    (hsel : c.selectedSquare = some sel)
    (hdest : sq ∈ c.possibleMoves)
    (hmoves : E.movesAll cAi.game ≠ []) :
    (onSquareClick E ch c sq).redoStack = [] ∧
    (aiTimeoutStep E k cAi).redoStack = [] := by
  have hg : ¬ ((c.aiThinking = true) ∨ ¬ (E.turn c.game = c.playerColor)) := by
    simp [hbusy, hturn]
  constructor
  · unfold onSquareClick
    rw [if_neg hg]
    simp only [hsel]
    rw [if_pos hdest]
  · unfold aiTimeoutStep
    rw [dif_neg (by simpa using hmoves)]

/-- A state over the test engine in which the human (White) has the e2
pawn selected with its two destinations, and a stale redo stack. -/
def cSel : Ctrl Nat :=
  { game := 0, playerColor := 'w', aiColor := 'b', aiThinking := false,
    redoStack := [mvE7E5], showThreats := false, flipped := false,
    selectedSquare := some sqE2, possibleMoves := [sqE3, sqE4] }

/-- A state over the test engine in which the AI (Black) is about to
commit its deferred move in state 1. -/
def cAiTurn : Ctrl Nat :=
  { game := 1, playerColor := 'w', aiColor := 'b', aiThinking := true,
    redoStack := [mvE2E4], showThreats := false, flipped := false,
    selectedSquare := none, possibleMoves := [] }

theorem claim2_move_clears_redo_witness :
    (onSquareClick TEmain none cSel sqE4).redoStack = [] ∧
    (aiTimeoutStep TEmain 0 cAiTurn).redoStack = [] :=
  claim2_move_clears_redo TEmain none cSel cAiTurn sqE4 0 sqE2
    rfl rfl rfl (by decide) (by decide)

/-- Claim C3: with the AI idle and a non-empty history (the engine has a
move to undo), redoing immediately after undoing restores the engine
state, the redo stack and the move-history length; the hypothesis
`hround` is the rules-engine law that re-applying the popped move's
from/to/promotion fields from the undone position restores the position. -/
theorem claim3_undo_redo_roundtrip {σ : Type} (E : Engine σ) (c : Ctrl σ)
    (g2 : σ) (mv : ChessMove)
    (hbusy : c.aiThinking = false)
    (hundo : E.undo c.game = some (g2, mv))
    (hround : E.moveApply g2 ⟨mv.fromSq, mv.toSq, mv.promotion⟩ = some c.game) :
    (redoMove E (undoLastMove E c)).game = c.game ∧
    (redoMove E (undoLastMove E c)).redoStack = c.redoStack ∧
    E.historyLen (redoMove E (undoLastMove E c)).game = E.historyLen c.game := by
  have h1 : undoLastMove E c =
      { c with game := g2, redoStack := mv :: c.redoStack,
               selectedSquare := none, possibleMoves := [],
               aiThinking := false } := by
    unfold undoLastMove
    rw [if_neg (by simp [hbusy]), hundo]
  rw [h1]
  unfold redoMove moveOrKeep
  simp [hround]

/-- The controller state over the test engine right after White played
e2-e4 (engine state 1, one move of history). -/
def cAfterE4 : Ctrl Nat :=
  { game := 1, playerColor := 'w', aiColor := 'b', aiThinking := false,
    redoStack := [], showThreats := false, flipped := false,
    selectedSquare := none, possibleMoves := [] }

theorem claim3_undo_redo_roundtrip_witness :
    (redoMove TEmain (undoLastMove TEmain cAfterE4)).game = cAfterE4.game ∧
    (redoMove TEmain (undoLastMove TEmain cAfterE4)).redoStack = cAfterE4.redoStack ∧
    TEmain.historyLen (redoMove TEmain (undoLastMove TEmain cAfterE4)).game =
      TEmain.historyLen cAfterE4.game :=
  claim3_undo_redo_roundtrip TEmain cAfterE4 0 mvE2E4 rfl (by decide) (by decide)

/-- Claim C9: `undoLastMove` is a no-op while the AI is busy or when the
engine has nothing to undo (chess.js returns null exactly when the move
history is empty); otherwise it installs the undone position, pushes the
popped move on the redo stack, clears the selection, leaves the busy
flag false, and—given the engine law that undoing shortens the history
by one—the history shrinks by exactly one move. -/
theorem claim9_undo_semantics {σ : Type} (E : Engine σ) (c : Ctrl σ) :
    (c.aiThinking = true → undoLastMove E c = c) ∧
    (E.undo c.game = none → undoLastMove E c = c) ∧
    (∀ g2 mv, c.aiThinking = false → E.undo c.game = some (g2, mv) →
      undoLastMove E c =
        { c with game := g2, redoStack := mv :: c.redoStack,
                 selectedSquare := none, possibleMoves := [],
                 aiThinking := false } ∧
      (E.historyLen c.game = E.historyLen g2 + 1 →
        E.historyLen (undoLastMove E c).game + 1 = E.historyLen c.game)) := by
  refine ⟨?_, ?_, ?_⟩
  · intro h
    unfold undoLastMove
    rw [if_pos (by simp [h])]
  · intro h
    by_cases hb : c.aiThinking
    · unfold undoLastMove
      rw [if_pos (by simp [hb])]
    · unfold undoLastMove
      rw [if_neg (by simp [hb]), h]
  · intro g2 mv hb hu
    have h1 : undoLastMove E c =
        { c with game := g2, redoStack := mv :: c.redoStack,
                 selectedSquare := none, possibleMoves := [],
                 aiThinking := false } := by
      unfold undoLastMove
      rw [if_neg (by simp [hb]), hu]
    refine ⟨h1, ?_⟩
    intro hlen
    rw [h1]
    simpa using hlen.symm

theorem claim9_undo_semantics_witness :
    undoLastMove TEmain cBusy = cBusy ∧
    undoLastMove TEmain (initCtrl 0 'w') = initCtrl 0 'w' ∧
    undoLastMove TEmain cAfterE4 =
      { cAfterE4 with game := 0, redoStack := [mvE2E4],
                      selectedSquare := none, possibleMoves := [],
                      aiThinking := false } ∧
    TEmain.historyLen (undoLastMove TEmain cAfterE4).game + 1 =
      TEmain.historyLen cAfterE4.game := by
  refine ⟨(claim9_undo_semantics TEmain cBusy).1 rfl,
          (claim9_undo_semantics TEmain (initCtrl 0 'w')).2.1 (by decide),
          ((claim9_undo_semantics TEmain cAfterE4).2.2 0 mvE2E4 rfl (by decide)).1,
          ((claim9_undo_semantics TEmain cAfterE4).2.2 0 mvE2E4 rfl (by decide)).2 (by decide)⟩

/-- Claim C4: when the human may act and clicks a square holding a piece
of the side to move that is not a currently legal destination, the click
selects that square and the destination set becomes exactly the set of
target squares of the legal moves the engine reports for it. -/
theorem claim4_selection_correct {σ : Type} (E : Engine σ) (ch : Option String)
    (c : Ctrl σ) (square : Square) (p : Piece)
    (hbusy : c.aiThinking = false)
    (hturn : E.turn c.game = c.playerColor)
    (hpiece : E.getPiece c.game square = some p)
    (hcol : p.color = E.turn c.game)
    (hnodest : square ∉ c.possibleMoves) :
    (onSquareClick E ch c square).selectedSquare = some square ∧
    ∀ d, d ∈ (onSquareClick E ch c square).possibleMoves ↔
      ∃ m ∈ E.movesFrom c.game square, m.toSq = d := by
  have hg : ¬ ((c.aiThinking = true) ∨ ¬ (E.turn c.game = c.playerColor)) := by
    simp [hbusy, hturn]
  have hsc : onSquareClick E ch c square =
      selectOrClear E c square (E.getPiece c.game square) := by
    unfold onSquareClick
    rw [if_neg hg]
    rcases hc : c.selectedSquare with _ | sel
    · simp only [hc]
    · simp only [hc]
      rw [if_neg hnodest]
  rw [hsc, hpiece]
  simp only [selectOrClear]
  rw [if_pos hcol]
  refine ⟨rfl, ?_⟩
  intro d
  simp [List.mem_map]

theorem claim4_selection_correct_witness :
    (onSquareClick TEmain none (initCtrl 0 'w') sqE2).selectedSquare = some sqE2 ∧
    (sqE4 ∈ (onSquareClick TEmain none (initCtrl 0 'w') sqE2).possibleMoves ↔
      ∃ m ∈ TEmain.movesFrom (initCtrl 0 'w').game sqE2, m.toSq = sqE4) := by
  have h := claim4_selection_correct TEmain none (initCtrl 0 'w') sqE2
    ⟨'p', 'w'⟩ rfl rfl (by decide) rfl (by decide)
  exact ⟨h.1, h.2 sqE4⟩

/-- Claim C6: when the human completes a move whose moving piece is a
pawn reaching the far rank (rank 8 for white, rank 1 for black), the
controller applies the move with the prompted promotion choice
lower-cased when it is one of q/r/b/n, defaulting to queen on a
cancelled, empty or invalid answer; in particular "n" promotes to a
knight. -/
theorem claim6_promotion {σ : Type} (E : Engine σ) (c : Ctrl σ)
    (square sel : Square) (mp : Piece) (choice : Option String)
    (hbusy : c.aiThinking = false)
    (hturn : E.turn c.game = c.playerColor)
    (hsel : c.selectedSquare = some sel)
    (hdest : square ∈ c.possibleMoves)
    (hmp : E.getPiece c.game sel = some mp)
    (hpawn : mp.ptype = 'p')
    (hrank : (mp.color = 'w' ∧ square.rank = '8') ∨
             (mp.color = 'b' ∧ square.rank = '1')) :
    (onSquareClick E choice c square).game =
      moveOrKeep E c.game ⟨sel, square, some (promoChoice choice)⟩ ∧
    promoChoice (some "n") = "n" ∧
    promoChoice none = "q" ∧
    promoChoice (some "") = "q" ∧
    promoChoice (some "x") = "q" ∧
    promoChoice (some "N") = "n" := by
  have hg : ¬ ((c.aiThinking = true) ∨ ¬ (E.turn c.game = c.playerColor)) := by
    simp [hbusy, hturn]
  refine ⟨?_, by decide, by decide, by decide, by decide, by decide⟩
  unfold onSquareClick
  rw [if_neg hg]
  simp only [hsel]
  rw [if_pos hdest]
  simp only [hmp]
  rw [if_pos ⟨hpawn, hrank⟩]

/-- The controller state over the test engine with a white pawn on e7
selected and the promotion square e8 as its destination. -/
def cPromo : Ctrl Nat :=
  { game := 2, playerColor := 'w', aiColor := 'b', aiThinking := false,
    redoStack := [], showThreats := false, flipped := false,
    selectedSquare := some sqE7, possibleMoves := [sqE8] }

theorem claim6_promotion_witness :
    (onSquareClick TEmain (some "n") cPromo sqE8).game = 3 ∧
    promoChoice (some "n") = "n" := by
  have h := claim6_promotion TEmain cPromo sqE8 sqE7 ⟨'p', 'w'⟩ (some "n")
    rfl (by decide) rfl (by decide) (by decide) rfl (Or.inl ⟨rfl, rfl⟩)
  refine ⟨?_, h.2.1⟩
  rw [h.1]
  decide

/-- Claim C8: the automated turn is a no-op when it is not the AI's turn
or the game is over; otherwise its synchronous part raises the busy
flag, and the deferred part either (a) finds no legal move and only
clears the busy flag, or (b) for a random index `k` below the legal-move
count applies exactly the k-th legal move, clears the selection, the
redo stack and the busy flag.  For a duplicate-free legal-move list each
move is picked by exactly one index, so a uniform index picks each move
with probability 1/n. -/
theorem claim8_automated_turn {σ : Type} (E : Engine σ) (k : Nat) (c : Ctrl σ) :
    ((¬ (E.turn c.game = c.aiColor) ∨ E.game_over c.game = true) →
      triggerAiMove E k c = c) ∧
    ((E.turn c.game = c.aiColor ∧ E.game_over c.game = false) →
      (triggerAiMoveSync E c).aiThinking = true) ∧
    (E.movesAll c.game = [] →
      aiTimeoutStep E k c = { c with aiThinking := false }) ∧
    (∀ hk : k < (E.movesAll c.game).length,
      aiTimeoutStep E k c =
        { c with game := moveOrKeep E c.game
                   ⟨((E.movesAll c.game).get ⟨k, hk⟩).fromSq,
                    ((E.movesAll c.game).get ⟨k, hk⟩).toSq,
                    ((E.movesAll c.game).get ⟨k, hk⟩).promotion⟩,
                 selectedSquare := none, possibleMoves := [],
                 aiThinking := false, redoStack := [] }) ∧
    ((E.movesAll c.game).Nodup → ∀ m ∈ E.movesAll c.game,
      ∃! i : Fin (E.movesAll c.game).length, (E.movesAll c.game).get i = m) := by
  refine ⟨?_, ?_, ?_, ?_, ?_⟩
  · intro h
    unfold triggerAiMove
    rw [if_pos h]
  · intro h
    unfold triggerAiMoveSync
    rw [if_neg (by simp [h.1, h.2])]
  · intro h
    unfold aiTimeoutStep
    rw [dif_pos (by simp [h])]
  · intro hk
    unfold aiTimeoutStep
    rw [dif_neg (by omega)]
    have hmod : k % (E.movesAll c.game).length = k := Nat.mod_eq_of_lt hk
    simp [hmod]
  · intro hnd m hm
    obtain ⟨i, hi⟩ := List.mem_iff_get.mp hm
    refine ⟨i, hi, ?_⟩
    intro j hj
    exact (hnd.get_inj_iff).mp (hj.trans hi.symm)

theorem claim8_automated_turn_witness :
    triggerAiMove TEmain 0 { cAfterE4 with aiColor := 'w' } =
      { cAfterE4 with aiColor := 'w' } ∧
    (triggerAiMoveSync TEmain cAfterE4).aiThinking = true ∧
    aiTimeoutStep TEterm 0 (initCtrl 0 'w') =
      { initCtrl 0 'w' with aiThinking := false } ∧
    aiTimeoutStep TEmain 0 cAiTurn =
      { cAiTurn with game := moveOrKeep TEmain cAiTurn.game
                       ⟨((TEmain.movesAll cAiTurn.game).get ⟨0, by decide⟩).fromSq,
                        ((TEmain.movesAll cAiTurn.game).get ⟨0, by decide⟩).toSq,
                        ((TEmain.movesAll cAiTurn.game).get ⟨0, by decide⟩).promotion⟩,
                     selectedSquare := none, possibleMoves := [],
                     aiThinking := false, redoStack := [] } ∧
    (∃! i : Fin (TEmain.movesAll cAiTurn.game).length,
      (TEmain.movesAll cAiTurn.game).get i = mvE7E5) := by
  refine ⟨(claim8_automated_turn TEmain 0 { cAfterE4 with aiColor := 'w' }).1
            (Or.inl (by decide)),
          (claim8_automated_turn TEmain 0 cAfterE4).2.1 ⟨by decide, by decide⟩,
          (claim8_automated_turn TEterm 0 (initCtrl 0 'w')).2.2.1 (by decide),
          (claim8_automated_turn TEmain 0 cAiTurn).2.2.2.1 (by decide),
          (claim8_automated_turn TEmain 0 cAiTurn).2.2.2.2 (by decide) mvE7E5
            (by decide)⟩

/-- Claim C10: `animateAIMove` produces exactly one completion-callback
occurrence on every execution path — immediately when no piece sits on
the source square, immediately when the source or destination square
element is missing, and otherwise exactly one occurrence after the fixed
550 ms transition — and the deferred AI step it completes always lowers
the busy flag, so `aiThinking` never remains true after the timeout body
runs. -/
theorem claim10_animation_callback_once {σ : Type} (E : Engine σ) (g : σ)
    (children : List SquareEl) (mv : ChessMove) (k : Nat) (c : Ctrl σ) :
    (animateAIMove E g children mv).length = 1 ∧
    (E.getPiece g mv.fromSq = none →
      animateAIMove E g children mv = [CbEvent.immediate]) ∧
    (∀ p, E.getPiece g mv.fromSq = some p →
      (((children.find? (fun el => el.square == mv.fromSq)).isSome ∧
        (children.find? (fun el => el.square == mv.toSq)).isSome) →
        animateAIMove E g children mv = [CbEvent.afterDelay 550]) ∧
      (¬ ((children.find? (fun el => el.square == mv.fromSq)).isSome ∧
          (children.find? (fun el => el.square == mv.toSq)).isSome) →
        animateAIMove E g children mv = [CbEvent.immediate])) ∧
    (aiTimeoutStep E k c).aiThinking = false := by
  refine ⟨?_, ?_, ?_, ?_⟩
  · unfold animateAIMove
    rcases hp : E.getPiece g mv.fromSq with _ | p
    · rfl
    · rcases hfe : children.find? (fun el => el.square == mv.fromSq) with _ | fe
      · simp [hfe]
      · rcases hte : children.find? (fun el => el.square == mv.toSq) with _ | te
        · simp [hfe, hte]
        · simp [hfe, hte]
  · intro h0
    unfold animateAIMove
    simp only [h0]
  · intro p hp
    constructor
    · rintro ⟨h1, h2⟩
      obtain ⟨fe, hfe⟩ := Option.isSome_iff_exists.mp h1
      obtain ⟨te, hte⟩ := Option.isSome_iff_exists.mp h2
      unfold animateAIMove
      simp only [hp, hfe, hte]
    · intro hno
      unfold animateAIMove
      rcases hfe : children.find? (fun el => el.square == mv.fromSq) with _ | fe
      · simp only [hp, hfe]
      · rcases hte : children.find? (fun el => el.square == mv.toSq) with _ | te
        · simp only [hp, hfe, hte]
        · exact absurd ⟨by simp [hfe], by simp [hte]⟩ hno
  · by_cases h : (E.movesAll c.game).length = 0
    · unfold aiTimeoutStep
      rw [dif_pos h]
    · unfold aiTimeoutStep
      rw [dif_neg h]

theorem claim10_animation_callback_once_witness :
    (animateAIMove TEmain 0 [⟨sqE2⟩, ⟨sqE4⟩] mvE2E4).length = 1 ∧
    animateAIMove TEmain 1 [⟨sqE2⟩, ⟨sqE4⟩] mvE2E4 = [CbEvent.immediate] ∧
    animateAIMove TEmain 0 [⟨sqE2⟩, ⟨sqE4⟩] mvE2E4 = [CbEvent.afterDelay 550] ∧
    animateAIMove TEmain 0 [⟨sqE2⟩] mvE2E4 = [CbEvent.immediate] ∧
    (aiTimeoutStep TEmain 0 cAiTurn).aiThinking = false := by
  have h1 := claim10_animation_callback_once TEmain 0 [⟨sqE2⟩, ⟨sqE4⟩] mvE2E4 0 cAiTurn
  have h2 := claim10_animation_callback_once TEmain 1 [⟨sqE2⟩, ⟨sqE4⟩] mvE2E4 0 cAiTurn
  have h3 := claim10_animation_callback_once TEmain 0 [⟨sqE2⟩] mvE2E4 0 cAiTurn
  exact ⟨h1.1, h2.2.1 (by decide),
         (h1.2.2.1 ⟨'p', 'w'⟩ (by decide)).1 ⟨by decide, by decide⟩,
         (h3.2.2.1 ⟨'p', 'w'⟩ (by decide)).2 (by decide),
         h1.2.2.2⟩

/-! The selection invariant holds in every reachable state. -/

theorem selInv_selectOrClear {σ : Type} (E : Engine σ) (c : Ctrl σ)
    (sq : Square) (piece : Option Piece) :
    SelInv E (selectOrClear E c sq piece) := by
  rcases piece with _ | p
  · left
    simp [selectOrClear]
  · by_cases hc : p.color = E.turn c.game
    · right
      refine ⟨sq, ?_, ?_⟩ <;> simp [selectOrClear, hc]
    · left
      simp [selectOrClear, hc]

theorem selInv_onSquareClick {σ : Type} (E : Engine σ) (ch : Option String)
    (c : Ctrl σ) (sq : Square) (h : SelInv E c) :
    SelInv E (onSquareClick E ch c sq) := by
  by_cases hg : (c.aiThinking = true ∨ ¬ (E.turn c.game = c.playerColor))
  · rw [onSquareClick_gated E ch c sq hg]
    exact h
  · unfold onSquareClick
    rw [if_neg hg]
    rcases hs : c.selectedSquare with _ | sel
    · simp only [hs]
      exact selInv_selectOrClear E c sq (E.getPiece c.game sq)
    · simp only [hs]
      by_cases hd : sq ∈ c.possibleMoves
      · rw [if_pos hd]
        left; rfl
      · rw [if_neg hd]
        exact selInv_selectOrClear E c sq (E.getPiece c.game sq)

theorem selInv_undoLastMove {σ : Type} (E : Engine σ) (c : Ctrl σ)
    (h : SelInv E c) : SelInv E (undoLastMove E c) := by
  unfold undoLastMove
  by_cases hb : (c.aiThinking = true)
  · rw [if_pos (by simpa using hb)]
    exact h
  · rw [if_neg (by simpa using hb)]
    rcases hu : E.undo c.game with _ | p
    · exact h
    · left; rfl

theorem selInv_redoMove {σ : Type} (E : Engine σ) (c : Ctrl σ)
    (h : SelInv E c) : SelInv E (redoMove E c) := by
  unfold redoMove
  by_cases hb : (c.aiThinking = true)
  · rw [if_pos (by simpa using hb)]
    exact h
  · rw [if_neg (by simpa using hb)]
    rcases hr : c.redoStack with _ | ⟨mv, rest⟩
    · exact h
    · left; rfl

theorem resetGame_fields {σ : Type} (E : Engine σ) (coin : Bool) (c : Ctrl σ) :
    (resetGame E coin c).game = E.reset c.game ∧
    (resetGame E coin c).selectedSquare = none ∧
    (resetGame E coin c).possibleMoves = [] ∧
    (resetGame E coin c).redoStack = [] := by
  refine ⟨?_, ?_, ?_, ?_⟩ <;>
    (simp only [resetGame, triggerAiMoveSync]
     try (split <;> (try split))
     all_goals simp_all
     all_goals (split <;> rfl))

theorem selInv_resetGame {σ : Type} (E : Engine σ) (coin : Bool) (c : Ctrl σ) :
    SelInv E (resetGame E coin c) := by
  left
  exact (resetGame_fields E coin c).2.2.1

theorem selInv_flipBoard {σ : Type} (E : Engine σ) (c : Ctrl σ)
    (h : SelInv E c) : SelInv E (flipBoard c) := by
  simpa [SelInv, flipBoard] using h

theorem selInv_toggleThreats {σ : Type} (E : Engine σ) (c : Ctrl σ)
    (h : SelInv E c) : SelInv E (toggleThreats c) := by
  simpa [SelInv, toggleThreats] using h

theorem selInv_triggerAiMoveSync {σ : Type} (E : Engine σ) (c : Ctrl σ)
    (h : SelInv E c) : SelInv E (triggerAiMoveSync E c) := by
  unfold triggerAiMoveSync
  split
  · exact h
  · simpa [SelInv] using h

theorem selInv_aiTimeoutStep {σ : Type} (E : Engine σ) (k : Nat) (c : Ctrl σ)
    (h : SelInv E c) : SelInv E (aiTimeoutStep E k c) := by
  by_cases hz : (E.movesAll c.game).length = 0
  · unfold aiTimeoutStep
    rw [dif_pos hz]
    simpa [SelInv] using h
  · unfold aiTimeoutStep
    rw [dif_neg hz]
    left; rfl

theorem reach_selInv {σ : Type} (E : Engine σ) (g0 : σ) (c : Ctrl σ)
    (h : Reach E g0 c) : SelInv E c := by
  induction h with
  | init pc => left; rfl
  | click ch sq _ ih => exact selInv_onSquareClick E ch _ sq ih
  | undoStep _ ih => exact selInv_undoLastMove E _ ih
  | redoStep _ ih => exact selInv_redoMove E _ ih
  | resetStep coin _ _ => exact selInv_resetGame E coin _
  | flipStep _ ih => exact selInv_flipBoard E _ ih
  | threatsStep _ ih => exact selInv_toggleThreats E _ ih
  | aiSync _ ih => exact selInv_triggerAiMoveSync E _ ih
  | aiStep k _ ih => exact selInv_aiTimeoutStep E k _ ih

/-! Terminal stability: clicks cannot move once the engine reports no
legal moves anywhere and the destination set is empty. -/

theorem selectOrClear_terminal {σ : Type} (E : Engine σ) (c : Ctrl σ)
    (sq : Square) (piece : Option Piece)
    (hm : ∀ s, E.movesFrom c.game s = []) :
    (selectOrClear E c sq piece).game = c.game ∧
    (selectOrClear E c sq piece).possibleMoves = [] := by
  rcases piece with _ | p
  · exact ⟨by simp [selectOrClear], by simp [selectOrClear]⟩
  · by_cases hc : p.color = E.turn c.game
    · exact ⟨by simp [selectOrClear, hc], by simp [selectOrClear, hc, hm]⟩
    · exact ⟨by simp [selectOrClear, hc], by simp [selectOrClear, hc]⟩

theorem onSquareClick_terminal {σ : Type} (E : Engine σ) (ch : Option String)
    (c : Ctrl σ) (sq : Square)
    (hpm : c.possibleMoves = [])
    (hm : ∀ s, E.movesFrom c.game s = []) :
    (onSquareClick E ch c sq).game = c.game ∧
    (onSquareClick E ch c sq).possibleMoves = [] := by
  by_cases hg : (c.aiThinking = true ∨ ¬ (E.turn c.game = c.playerColor))
  · rw [onSquareClick_gated E ch c sq hg]
    exact ⟨rfl, hpm⟩
  · unfold onSquareClick
    rw [if_neg hg]
    rcases hs : c.selectedSquare with _ | sel
    · simp only [hs]
      exact selectOrClear_terminal E c sq (E.getPiece c.game sq) hm
    · simp only [hs]
      rw [if_neg (by simp [hpm])]
      exact selectOrClear_terminal E c sq (E.getPiece c.game sq) hm

theorem clickFold_terminal {σ : Type} (E : Engine σ)
    (l : List (Square × Option String)) (c : Ctrl σ)
    (hpm : c.possibleMoves = [])
    (hm : ∀ s, E.movesFrom c.game s = []) :
    (clickFold E l c).game = c.game ∧
    (clickFold E l c).possibleMoves = [] := by
  induction l generalizing c with
  | nil => exact ⟨rfl, hpm⟩
  | cons p rest ih =>
    have h1 := onSquareClick_terminal E p.2 c p.1 hpm hm
    have hm2 : ∀ s, E.movesFrom (onSquareClick E p.2 c p.1).game s = [] := by
      intro s
      rw [h1.1]
      exact hm s
    have h2 := ih (onSquareClick E p.2 c p.1) h1.2 hm2
    constructor
    · show (clickFold E rest (onSquareClick E p.2 c p.1)).game = c.game
      rw [h2.1, h1.1]
    · exact h2.2

/-- A test engine modelling a position drawn with legal moves remaining
(as chess.js reports for the 50-move rule, threefold repetition or
insufficient material): state 0 is drawn and game over, White to move,
yet the white king on e2 still has the legal move e2-e3, which the
engine accepts, reaching state 1 with one more move of history. -/
def TEdraw : Engine Nat where
  turn g := if g = 1 then 'b' else 'w'
  getPiece g sq := if g = 0 ∧ sq = sqE2 then some ⟨'k', 'w'⟩ else none
  movesFrom g sq := if g = 0 ∧ sq = sqE2 then [mvE2E3] else []
  movesAll g := if g = 0 then [mvE2E3] else []
  moveApply g m := if g = 0 ∧ m = mvE2E3 then some 1 else none
  undo g := if g = 1 then some (0, mvE2E3) else none
  in_checkmate _ := false
  in_draw _ := true
  game_over _ := true
  reset _ := 0
  historyLen g := if g = 1 then 1 else 0

/-- Claim C5, counterexample: in a reachable state whose position the
engine reports as drawn (with legal moves remaining, as happens for
50-move/threefold/material draws), two human clicks still complete a
move — `onSquareClick` checks only the busy flag and the turn, never
`game_over` — so the history grows by one. -/
theorem claim5_terminal_stability_counterexample :
    TEdraw.in_draw (initCtrl (0 : Nat) 'w').game = true ∧
    Reach TEdraw 0 (initCtrl 0 'w') ∧
    TEdraw.historyLen
        (clickFold TEdraw [(sqE2, none), (sqE3, none)] (initCtrl 0 'w')).game =
      TEdraw.historyLen (initCtrl (0 : Nat) 'w').game + 1 :=
  ⟨rfl, Reach.init 'w', by decide⟩

/-- Claim C5, amended: in any reachable controller state, (a) when the
engine reports no legal moves at all — checkmate or stalemate — no
sequence of human clicks changes the engine state or the history
length; (b) whenever the game is over (which includes every checkmate
and draw), the automated turn is a complete no-op; (c) resetting still
succeeds and clears the terminal status, the reset position being
non-terminal.  In drawn positions where legal moves remain the human
half fails: `onSquareClicked` still accepts and applies moves. -/
theorem claim5_terminal_stability_amended {σ : Type} (E : Engine σ) (g0 : σ)
    (c : Ctrl σ) (k : Nat) (coin : Bool)
    (clicks : List (Square × Option String))
    (hreach : Reach E g0 c) :
    ((∀ s, E.movesFrom c.game s = []) →
      (clickFold E clicks c).game = c.game ∧
      E.historyLen (clickFold E clicks c).game = E.historyLen c.game) ∧
    (E.game_over c.game = true → triggerAiMove E k c = c) ∧
    ((E.in_checkmate (E.reset c.game) = false ∧
      E.in_draw (E.reset c.game) = false) →
      E.in_checkmate (resetGame E coin c).game = false ∧
      E.in_draw (resetGame E coin c).game = false) := by
  refine ⟨?_, ?_, ?_⟩
  · intro hm
    have hpm : c.possibleMoves = [] := by
      rcases reach_selInv E g0 c hreach with h | ⟨s, _, hpm⟩
      · exact h
      · rw [hpm, hm s]
        rfl
    have hfold := clickFold_terminal E clicks c hpm hm
    exact ⟨hfold.1, by rw [hfold.1]⟩
  · intro hgo
    unfold triggerAiMove
    rw [if_pos (Or.inr hgo)]
  · intro hreset
    refine ⟨?_, ?_⟩ <;> rw [(resetGame_fields E coin c).1]
    · exact hreset.1
    · exact hreset.2

theorem claim5_terminal_stability_amended_witness :
    (clickFold TEterm [(sqE2, none), (sqE4, some "q")] (initCtrl 0 'w')).game =
      (initCtrl (0 : Nat) 'w').game ∧
    TEterm.historyLen
        (clickFold TEterm [(sqE2, none), (sqE4, some "q")] (initCtrl 0 'w')).game =
      TEterm.historyLen (initCtrl (0 : Nat) 'w').game ∧
    triggerAiMove TEterm 0 (initCtrl 0 'w') = initCtrl 0 'w' ∧
    TEterm.in_checkmate (resetGame TEterm true (initCtrl 0 'w')).game = false ∧
    TEterm.in_draw (resetGame TEterm true (initCtrl 0 'w')).game = false := by
  have h := claim5_terminal_stability_amended TEterm 0 (initCtrl 0 'w') 0 true
    [(sqE2, none), (sqE4, some "q")] (Reach.init 'w')
  have h1 := h.1 (fun s => rfl)
  exact ⟨h1.1, h1.2, h.2.1 rfl, (h.2.2 (by decide)).1, (h.2.2 (by decide)).2⟩

/-- If `selectOrClear` leaves a square selected, it is the clicked
square and it holds a piece of the side to move. -/
theorem selectOrClear_selected {σ : Type} (E : Engine σ) (c : Ctrl σ)
    (sq : Square) (piece : Option Piece) (s : Square)
    (h : (selectOrClear E c sq piece).selectedSquare = some s) :
    s = sq ∧ ∃ p, piece = some p ∧ p.color = E.turn c.game := by
  rcases piece with _ | p
  · simp [selectOrClear] at h
  · by_cases hc : p.color = E.turn c.game
    · simp [selectOrClear, hc] at h
      exact ⟨h.symm, p, rfl, hc⟩
    · simp [selectOrClear, hc] at h

/-- Claim C7, counterexample to the part_000 half: in the part_000
variant, the AI's deferred move-selection step — not a human click —
turns the Selection from empty to the AI move's source square, in a
state reachable from the initial state. -/
theorem claim7_selection_invariant_counterexample :
    (triggerAiMoveSyncV0 TEmain (initCtrlV0 1 'w')).selectedSquare = none ∧
    (aiTimeoutSelectV0 TEmain 0
        (triggerAiMoveSyncV0 TEmain (initCtrlV0 1 'w'))).selectedSquare =
      some sqE7 ∧
    ReachV0 TEmain 1
      (aiTimeoutSelectV0 TEmain 0 (triggerAiMoveSyncV0 TEmain (initCtrlV0 1 'w'))) :=
  ⟨by decide, by decide, ReachV0.aiSelect 0 (ReachV0.aiSync (ReachV0.init 'w'))⟩

/-- Claim C7, amended: in the app_ai.js variant, no operation other than
a human click ever sets the Selection (starting from an empty Selection,
every non-click operation leaves it empty), and a click that results in
a selected square selected exactly the clicked square, which holds a
piece of the side to move.  (In the part_000 variant the AI's deferred
step additionally sets the Selection to its chosen move's source square
for the duration of the move animation.) -/
theorem claim7_selection_invariant_amended {σ : Type} (E : Engine σ)
    (c : Ctrl σ) (k : Nat) (ch : Option String) (sq : Square) (coin : Bool)
    (hsel : c.selectedSquare = none) :
    (undoLastMove E c).selectedSquare = none ∧
    (redoMove E c).selectedSquare = none ∧
    (resetGame E coin c).selectedSquare = none ∧
    (flipBoard c).selectedSquare = none ∧
    (toggleThreats c).selectedSquare = none ∧
    (triggerAiMoveSync E c).selectedSquare = none ∧
    (aiTimeoutStep E k c).selectedSquare = none ∧
    (triggerAiMove E k c).selectedSquare = none ∧
    (∀ s, (onSquareClick E ch c sq).selectedSquare = some s →
      s = sq ∧ ∃ p, E.getPiece c.game sq = some p ∧ p.color = E.turn c.game) := by
  have hstep : ∀ c' : Ctrl σ, c'.selectedSquare = none →
      (aiTimeoutStep E k c').selectedSquare = none := by
    intro c' h
    by_cases hz : (E.movesAll c'.game).length = 0
    · unfold aiTimeoutStep
      rw [dif_pos hz]
      simpa using h
    · unfold aiTimeoutStep
      rw [dif_neg hz]
  refine ⟨?_, ?_, ?_, ?_, ?_, ?_, ?_, ?_, ?_⟩
  · unfold undoLastMove
    by_cases hb : (c.aiThinking = true)
    · rw [if_pos (by simpa using hb)]
      exact hsel
    · rw [if_neg (by simpa using hb)]
      rcases hu : E.undo c.game with _ | p
      · exact hsel
      · rfl
  · unfold redoMove
    by_cases hb : (c.aiThinking = true)
    · rw [if_pos (by simpa using hb)]
      exact hsel
    · rw [if_neg (by simpa using hb)]
      rcases hr : c.redoStack with _ | ⟨mv, rest⟩
      · exact hsel
      · rfl
  · exact (resetGame_fields E coin c).2.1
  · simpa [flipBoard] using hsel
  · simpa [toggleThreats] using hsel
  · unfold triggerAiMoveSync
    split
    · exact hsel
    · simpa using hsel
  · exact hstep c hsel
  · unfold triggerAiMove
    split
    · exact hsel
    · exact hstep _ (by simpa using hsel)
  · intro s hs
    by_cases hg : (c.aiThinking = true ∨ ¬ (E.turn c.game = c.playerColor))
    · rw [onSquareClick_gated E ch c sq hg, hsel] at hs
      cases hs
    · unfold onSquareClick at hs
      rw [if_neg hg] at hs
      simp only [hsel] at hs
      exact selectOrClear_selected E c sq (E.getPiece c.game sq) s hs

theorem claim7_selection_invariant_amended_witness :
    (undoLastMove TEmain cAfterE4).selectedSquare = none ∧
    (redoMove TEmain cAfterE4).selectedSquare = none ∧
    (resetGame TEmain true cAfterE4).selectedSquare = none ∧
    (flipBoard cAfterE4).selectedSquare = none ∧
    (toggleThreats cAfterE4).selectedSquare = none ∧
    (triggerAiMoveSync TEmain cAfterE4).selectedSquare = none ∧
    (aiTimeoutStep TEmain 0 cAfterE4).selectedSquare = none ∧
    (triggerAiMove TEmain 0 cAfterE4).selectedSquare = none := by
  have h := claim7_selection_invariant_amended TEmain cAfterE4 0 none sqE2 true rfl
  exact ⟨h.1, h.2.1, h.2.2.1, h.2.2.2.1, h.2.2.2.2.1, h.2.2.2.2.2.1,
         h.2.2.2.2.2.2.1, h.2.2.2.2.2.2.2.1⟩
